import Mathlib

/-!
Verification of the real-time duplex voice engine of the Ask-DHARMA-AI client.

The development shallowly embeds the audio codec helpers of
`src/services/geminiService.ts` (`decode`, `encode`, `createPcmBlob`,
`pcmToAudioBuffer`) and the playback-scheduler / session logic of
`src/components/LiveVoiceInterface.tsx` (`onAudio`, `stopAllPlayback`,
`onInterrupted`, `processor.onaudioprocess`).

Modelling conventions:
* Audio samples are rationals (JavaScript performs the clamp/scale arithmetic
  in binary floating point; for any representable input the operations used
  here — clamping, scaling by 32768/32767, truncation — are exact, so the
  rational model agrees with the source on its actual inputs).
* Bytes and base64 sextets are natural numbers (`< 256`, `< 64`).
* The base64 text produced by `btoa` is modelled as its sextet stream; the
  trailing pad characters carry no information (they are determined by the
  length of the stream modulo 4, which is how `atob` recovers them), so the
  model drops them.
* Web-API failure modes are modelled with `Option`: `new Int16Array(buffer)`
  throws a RangeError when the byte length is odd, and
  `ctx.createBuffer(1, 0, rate)` throws a NotSupportedError when the frame
  count is zero, so the decoder returns `none` exactly in those cases.
* Mutable refs of the React component (`nextStartTimeRef`, `audioQueueRef`,
  the context/connection refs and the status state) become one explicit
  `VoiceState` record; the monotonic output clock (`ctx.currentTime`) is an
  explicit argument of each event handler.
-/

namespace AskDharma

/-! ## Base64 transport codec (geminiService.ts, `encode` / `decode`) -/

/-- Model of `encode` (geminiService.ts lines 230-237): the byte array is
turned into a binary string and fed to `btoa`, which packs consecutive groups
of three 8-bit bytes into four 6-bit sextets (final groups of one or two bytes
yield two resp. three sextets plus padding, which the model drops). -/
def encode : List ℕ → List ℕ
  | [] => []
  | [b0] => [b0 / 4, b0 % 4 * 16]
  | [b0, b1] => [b0 / 4, b0 % 4 * 16 + b1 / 16, b1 % 16 * 4]
  | b0 :: b1 :: b2 :: rest =>
      b0 / 4 :: (b0 % 4 * 16 + b1 / 16) :: (b1 % 16 * 4 + b2 / 64) :: b2 % 64
        :: encode rest

/-- Model of `decode` (geminiService.ts lines 219-227): `atob` unpacks each
group of four sextets into three bytes; a trailing group of two resp. three
sextets (signalled by the pad characters, i.e. by the length of the stream
modulo 4) yields one resp. two bytes. -/
def decode : List ℕ → List ℕ
  | s0 :: s1 :: s2 :: s3 :: rest =>
      (s0 * 4 + s1 / 16) :: (s1 % 16 * 16 + s2 / 4) :: (s2 % 4 * 64 + s3) :: decode rest
  | [s0, s1] => [s0 * 4 + s1 / 16]
  | [s0, s1, s2] => [s0 * 4 + s1 / 16, s1 % 16 * 16 + s2 / 4]
  | _ => []

/-! ## PCM encoder (geminiService.ts, `createPcmBlob`) -/

/-- Truncation toward zero of a rational, as performed by JavaScript's
ToInt16 conversion when a float is stored into an `Int16Array`. -/
def ratTrunc (x : ℚ) : ℤ := if x < 0 then ⌈x⌉ else ⌊x⌋

/-- Reduction of an integer into signed 16-bit range by wrapping modulo
2^16, the final step of JavaScript's ToInt16 conversion. -/
def wrap16 (n : ℤ) : ℤ := (n + 32768) % 65536 - 32768

/-- Clamp of a sample, `Math.max(-1, Math.min(1, data[i]))` in
geminiService.ts line 245. -/
def clamp (x : ℚ) : ℚ := max (-1) (min 1 x)

/-- Per-sample body of the `createPcmBlob` loop (geminiService.ts lines
243-246): clamp to [-1, 1], scale negatives by 0x8000 and non-negatives by
0x7FFF, then store into the `Int16Array` (truncate toward zero and wrap). -/
def toInt16 (x : ℚ) : ℤ :=
  wrap16 (ratTrunc (if clamp x < 0 then clamp x * 32768 else clamp x * 32767))

/-- Stated from the words of the spec (section 4.1): clamp to [-1,1]; scale
negative values by 32768, non-negative by 32767, truncate to a 16-bit signed
integer. Kept separate from `toInt16` (which follows the source, including
the modular wrap of the `Int16Array` store) so the two can be compared. -/
def specInt16 (x : ℚ) : ℤ :=
  ratTrunc (if clamp x < 0 then clamp x * 32768 else clamp x * 32767)

/-- Little-endian byte pair of a stored 16-bit sample, as laid out by
`new Uint8Array(int16.buffer)`: low byte first. -/
def int16ToBytes (k : ℤ) : List ℕ :=
  [((k % 65536).toNat) % 256, ((k % 65536).toNat) / 256]

/-- Raw little-endian PCM16 byte stream of a sample list, i.e. the contents
of `int16.buffer` built by the `createPcmBlob` loop. -/
def pcmBytes : List ℚ → List ℕ
  | [] => []
  | x :: rest => int16ToBytes (toInt16 x) ++ pcmBytes rest

/-- Outbound wire chunk: base64-encoded PCM16 payload plus MIME tag. -/
structure PcmBlob where
  data : List ℕ
  mimeType : String
  deriving DecidableEq, Repr

/-- Model of `createPcmBlob` (geminiService.ts lines 240-252). -/
def createPcmBlob (samples : List ℚ) : PcmBlob :=
  { data := encode (pcmBytes samples), mimeType := "audio/pcm;rate=16000" }

/-! ## PCM decoder (geminiService.ts, `pcmToAudioBuffer`) -/

/-- Signed 16-bit value of a little-endian byte pair, as read back by an
`Int16Array` view: the unsigned value `lo + 256 * hi`, reinterpreted in
two's complement. -/
def int16OfPair (lo hi : ℕ) : ℤ :=
  if lo + 256 * hi < 32768 then (lo + 256 * hi : ℤ) else (lo + 256 * hi : ℤ) - 65536

/-- Sample stream of a PCM16 byte stream: each byte pair is read as a signed
little-endian 16-bit integer and divided by 32768.0 (geminiService.ts
line 264). -/
def pairsToSamples : List ℕ → List ℚ
  | lo :: hi :: rest => (int16OfPair lo hi : ℚ) / 32768 :: pairsToSamples rest
  | _ => []

/-- Model of `pcmToAudioBuffer` (geminiService.ts lines 255-267) applied to
the already base64-decoded byte stream. The `Int16Array` view over the byte
buffer throws a RangeError when the byte length is odd, and
`ctx.createBuffer(1, dataInt16.length, sampleRate)` throws a
NotSupportedError when `dataInt16.length` is zero; both failures are `none`.
Otherwise the returned buffer holds one sample per byte pair. -/
def pcmToAudioBuffer (bytes : List ℕ) : Option (List ℚ) :=
  if bytes.length % 2 = 1 then none
  else if bytes.length = 0 then none
  else some (pairsToSamples bytes)

/-- Full wire round trip of a sample list: encode with `createPcmBlob`,
transport the base64 text, decode with `pcmToAudioBuffer`. -/
def wireRoundTrip (samples : List ℚ) : Option (List ℚ) :=
  pcmToAudioBuffer (decode (createPcmBlob samples).data)


/-! ## Playback scheduler and session state (LiveVoiceInterface.tsx) -/

/-- A scheduled playback unit: an `AudioBufferSourceNode` started at
`startTime` on the output clock, whose buffer lasts `duration` seconds
(`buffer.duration = frameCount / 24000` for the 24 kHz output context). -/
structure PlaybackUnit where
  startTime : ℚ
  duration : ℚ
  deriving DecidableEq, Repr

/-- Mutable state of the LiveVoiceInterface component: the React state and
refs read or written by the session handlers. `nextStartTime` is
`nextStartTimeRef` (the playback cursor), `audioQueue` is `audioQueueRef`
(the active-unit set, in scheduling order); the four Bool fields model
whether `inputContextRef` / `outputContextRef` / `sendAudioRef` /
`disconnectRef` currently hold a live handle. -/
structure VoiceState where
  isActive : Bool
  status : String
  inputCtxOpen : Bool
  outputCtxOpen : Bool
  sendAudioConnected : Bool
  disconnectConnected : Bool
  nextStartTime : ℚ
  audioQueue : List PlaybackUnit
  deriving DecidableEq, Repr

/-- Model of the `onAudio` callback (LiveVoiceInterface.tsx lines 136-168):
bail out if the output context is gone; decode the chunk (any throw is
caught, logged and leaves the state untouched); otherwise start a source
node at `max(ctx.currentTime, nextStartTimeRef.current)`, advance the
cursor by the buffer duration and push the node onto the queue. `now` is
`ctx.currentTime` and `chunk` is the inbound payload after base64 decoding;
the scheduled unit (if any) is returned alongside the new state. -/
def onAudio (now : ℚ) (chunk : List ℕ) (st : VoiceState) :
    VoiceState × Option PlaybackUnit :=
  if st.outputCtxOpen = false then (st, none)
  else
    match pcmToAudioBuffer chunk with
    | none => (st, none)
    | some samples =>
        let startTime := max now st.nextStartTime
        let u : PlaybackUnit :=
          { startTime := startTime, duration := (samples.length : ℚ) / 24000 }
        ({ st with
            nextStartTime := startTime + u.duration,
            audioQueue := st.audioQueue ++ [u] }, some u)

/-- Model of the `sourceNode.onended` callback (lines 159-163): remove the
finished node from the queue (indexOf + splice removes one occurrence). -/
def onEnded (u : PlaybackUnit) (st : VoiceState) : VoiceState :=
  { st with audioQueue := st.audioQueue.erase u }

/-- Model of `stopAllPlayback` (lines 201-212): stop every queued node,
clear the queue, and (when the output context is still open) reset the
cursor to the current output clock. -/
def stopAllPlayback (now : ℚ) (st : VoiceState) : VoiceState :=
  { st with
      audioQueue := [],
      nextStartTime := if st.outputCtxOpen then now else st.nextStartTime }

/-- Model of the `onInterrupted` callback (lines 169-172): its whole body is
a call to `stopAllPlayback`. -/
def onInterrupted (now : ℚ) (st : VoiceState) : VoiceState :=
  stopAllPlayback now st

/-- Run of consecutive `onAudio` events (each an output-clock reading paired
with a chunk), returning the final state and the units scheduled, in
order. -/
def runOnAudio (st : VoiceState) : List (ℚ × List ℕ) → VoiceState × List PlaybackUnit
  | [] => (st, [])
  | (now, chunk) :: rest =>
      let p := onAudio now chunk st
      let q := runOnAudio p.1 rest
      (q.1, p.2.toList ++ q.2)

/-- Paced delivery: at every event of the run, the output clock has not yet
passed the playback cursor. -/
def paced (st : VoiceState) : List (ℚ × List ℕ) → Prop
  | [] => True
  | (now, chunk) :: rest => now ≤ st.nextStartTime ∧ paced (onAudio now chunk st).1 rest

/-! ## Capture pipeline (LiveVoiceInterface.tsx, `processor.onaudioprocess`) -/

/-- Model of the ScriptProcessor frame callback (lines 119-124) combined
with `sendAudioChunk` (geminiService.ts lines 309-314): when the send path
is connected, the captured frame is converted with `createPcmBlob` and
forwarded to the channel; the fake channel is the list of chunks received
so far. -/
def onaudioprocess (sendConnected : Bool) (frame : List ℚ) (sent : List PcmBlob) :
    List PcmBlob :=
  if sendConnected then sent ++ [createPcmBlob frame] else sent

/-- Run of the capture pipeline over a list of frames with a connected fake
channel, collecting the chunks the channel receives in order. -/
def captureRun (frames : List (List ℚ)) : List PcmBlob :=
  frames.foldl (fun sent frame => onaudioprocess true frame sent) []

/-- Trace of units scheduled by a run of `onAudio` events, in scheduling
order (each is a `sourceNode.start` call of the source). -/
def scheduledUnits (st : VoiceState) (evs : List (ℚ × List ℕ)) : List PlaybackUnit :=
  (runOnAudio st evs).2

/-- Component state during an active session: connected, listening, both
audio contexts open, cursor at the clock origin, no pending playback. -/
def listeningState : VoiceState :=
  { isActive := true, status := "Listening...", inputCtxOpen := true,
    outputCtxOpen := true, sendAudioConnected := true,
    disconnectConnected := true, nextStartTime := 0, audioQueue := [] }

/-- Event list of the C2 scenario: two 1000-sample (2000-byte) chunks
delivered back-to-back at output-clock time 0. -/
def twoChunks : List (ℚ × List ℕ) :=
  [(0, List.replicate 2000 0), (0, List.replicate 2000 0)]

/-- Event list of a small paced run: two 2-sample (4-byte) chunks delivered
at output-clock time 0. -/
def twoSmallChunks : List (ℚ × List ℕ) :=
  [(0, [0, 0, 0, 0]), (0, [0, 0, 0, 0])]

/-! ## Proof development -/

lemma decode_encode (b : List ℕ) (h : ∀ x ∈ b, x < 256) : decode (encode b) = b := by
  induction b using encode.induct with
  | case1 => rfl
  | case2 b0 =>
      simp only [encode, decode, List.cons.injEq, and_true]
      omega
  | case3 b0 b1 =>
      have h1 : b1 < 256 := h b1 (by simp)
      simp only [encode, decode, List.cons.injEq, and_true]
      omega
  | case4 b0 b1 b2 rest ih =>
      have h1 : b1 < 256 := h b1 (by simp)
      have h2 : b2 < 256 := h b2 (by simp)
      have hr : ∀ x ∈ rest, x < 256 := fun x hx => h x (by simp [hx])
      simp only [encode, decode, List.cons.injEq]
      exact ⟨by omega, by omega, by omega, ih hr⟩

lemma wrap16_eq_of_mem (n : ℤ) (h1 : -32768 ≤ n) (h2 : n ≤ 32767) : wrap16 n = n := by
  unfold wrap16; omega

lemma neg_one_le_clamp (x : ℚ) : (-1 : ℚ) ≤ clamp x := le_max_left _ _

lemma clamp_le_one (x : ℚ) : clamp x ≤ 1 := max_le (by norm_num) (min_le_left 1 x)

lemma clamp_eq_self (x : ℚ) (h1 : -1 ≤ x) (h2 : x ≤ 1) : clamp x = x := by
  unfold clamp
  rw [min_eq_right h2, max_eq_right h1]

lemma specInt16_eq_ceil (x : ℚ) (h : clamp x < 0) :
    specInt16 x = ⌈clamp x * 32768⌉ := by
  have hv : clamp x * 32768 < 0 := by nlinarith
  simp [specInt16, ratTrunc, h, hv]

lemma specInt16_eq_floor (x : ℚ) (h : 0 ≤ clamp x) :
    specInt16 x = ⌊clamp x * 32767⌋ := by
  have hv : ¬ (clamp x * 32767 < 0) := not_lt.mpr (by nlinarith)
  simp [specInt16, ratTrunc, not_lt.mpr h, hv]

lemma specInt16_lb (x : ℚ) : -32768 ≤ specInt16 x := by
  rcases lt_or_le (clamp x) 0 with h | h
  · rw [specInt16_eq_ceil x h]
    have hy : (-32768 : ℚ) ≤ clamp x * 32768 := by
      have := neg_one_le_clamp x; nlinarith
    have h2 : (-32768 : ℚ) ≤ (⌈clamp x * 32768⌉ : ℚ) :=
      le_trans hy (Int.le_ceil _)
    exact_mod_cast h2
  · rw [specInt16_eq_floor x h]
    have : (0 : ℤ) ≤ ⌊clamp x * 32767⌋ := Int.le_floor.mpr (by push_cast; nlinarith)
    omega

lemma specInt16_ub (x : ℚ) : specInt16 x ≤ 32767 := by
  rcases lt_or_le (clamp x) 0 with h | h
  · rw [specInt16_eq_ceil x h]
    have : ⌈clamp x * 32768⌉ ≤ (0 : ℤ) := Int.ceil_le.mpr (by push_cast; nlinarith)
    omega
  · rw [specInt16_eq_floor x h]
    have h2 : clamp x * 32767 ≤ 32767 := by
      have := clamp_le_one x; nlinarith
    have h3 : (⌊clamp x * 32767⌋ : ℚ) ≤ 32767 := le_trans (Int.floor_le _) h2
    exact_mod_cast h3

lemma toInt16_eq_specInt16 (x : ℚ) : toInt16 x = specInt16 x := by
  have h := wrap16_eq_of_mem (specInt16 x) (specInt16_lb x) (specInt16_ub x)
  unfold toInt16
  unfold specInt16 at h ⊢
  exact h

lemma int16OfPair_toBytes (k : ℤ) (h1 : -32768 ≤ k) (h2 : k ≤ 32767) :
    int16OfPair ((k % 65536).toNat % 256) ((k % 65536).toNat / 256) = k := by
  unfold int16OfPair
  split <;> omega

lemma int16ToBytes_lt (k : ℤ) : ∀ x ∈ int16ToBytes k, x < 256 := by
  intro x hx
  simp only [int16ToBytes, List.mem_cons, List.mem_singleton, List.not_mem_nil, or_false] at hx
  rcases hx with h | h <;> omega

lemma pcmBytes_length (s : List ℚ) : (pcmBytes s).length = 2 * s.length := by
  induction s with
  | nil => rfl
  | cons x rest ih => simp [pcmBytes, int16ToBytes, ih]; omega

lemma pcmBytes_lt (s : List ℚ) : ∀ x ∈ pcmBytes s, x < 256 := by
  induction s with
  | nil => simp [pcmBytes]
  | cons x rest ih =>
      intro b hb
      simp only [pcmBytes, List.mem_append] at hb
      rcases hb with h | h
      · exact int16ToBytes_lt _ b h
      · exact ih b h

lemma pairsToSamples_pcmBytes (s : List ℚ) :
    pairsToSamples (pcmBytes s) = s.map (fun x => (toInt16 x : ℚ) / 32768) := by
  induction s with
  | nil => rfl
  | cons x rest ih =>
      have hpair := int16OfPair_toBytes (toInt16 x)
        (by rw [toInt16_eq_specInt16]; exact specInt16_lb x)
        (by rw [toInt16_eq_specInt16]; exact specInt16_ub x)
      simp only [pcmBytes, int16ToBytes, List.cons_append, List.nil_append,
        List.append_nil, List.nil_append, List.append_eq,
        pairsToSamples, List.map_cons, ih, hpair]


lemma sample_bound (x : ℚ) (h1 : -1 ≤ x) (h2 : x ≤ 1) :
    |(toInt16 x : ℚ) / 32768 - x| ≤ 2 / 32768 := by
  rw [toInt16_eq_specInt16]
  have hc := clamp_eq_self x h1 h2
  rcases lt_or_le (clamp x) 0 with h | h
  · rw [specInt16_eq_ceil x h, hc]
    have hk1 : x * 32768 ≤ (⌈x * 32768⌉ : ℚ) := Int.le_ceil _
    have hk2 : (⌈x * 32768⌉ : ℚ) < x * 32768 + 1 := Int.ceil_lt_add_one _
    rw [abs_le]
    constructor <;> linarith
  · rw [specInt16_eq_floor x h, hc]
    rw [hc] at h
    have hk1 : (⌊x * 32767⌋ : ℚ) ≤ x * 32767 := Int.floor_le _
    have hk2 : x * 32767 - 1 < (⌊x * 32767⌋ : ℚ) := Int.sub_one_lt_floor _
    rw [abs_le]
    constructor <;> linarith

lemma pairsToSamples_length : ∀ bytes : List ℕ, bytes.length % 2 = 0 →
    2 * (pairsToSamples bytes).length = bytes.length
  | [], _ => rfl
  | [x], h => by simp at h
  | lo :: hi :: rest, h => by
      have hr : rest.length % 2 = 0 := by
        simp only [List.length_cons] at h
        omega
      have := pairsToSamples_length rest hr
      simp only [pairsToSamples, List.length_cons]
      omega

lemma pairsToSamples_getElem : ∀ (bytes : List ℕ) (i lo hi : ℕ),
    bytes[2 * i]? = some lo → bytes[2 * i + 1]? = some hi →
    (pairsToSamples bytes)[i]? = some ((int16OfPair lo hi : ℚ) / 32768)
  | [], i, lo, hi, h1, _ => by simp at h1
  | [x], i, lo, hi, h1, h2 => by
      rcases i with _ | j
      · simp at h2
      · rw [show 2 * (j + 1) = 2 * j + 1 + 1 by ring] at h1
        rw [List.getElem?_cons_succ] at h1
        simp at h1
  | a :: b :: rest, i, lo, hi, h1, h2 => by
      rcases i with _ | j
      · simp only [Nat.mul_zero, List.getElem?_cons_zero, Option.some.injEq] at h1
        rw [show 2 * 0 + 1 = 0 + 1 by ring, List.getElem?_cons_succ,
          List.getElem?_cons_zero] at h2
        rw [Option.some.injEq] at h2
        subst h1; subst h2
        simp [pairsToSamples]
      · rw [show 2 * (j + 1) = 2 * j + 1 + 1 by ring, List.getElem?_cons_succ,
          List.getElem?_cons_succ] at h1
        rw [show 2 * (j + 1) + 1 = (2 * j + 1) + 1 + 1 by ring, List.getElem?_cons_succ,
          List.getElem?_cons_succ] at h2
        simp only [pairsToSamples, List.getElem?_cons_succ]
        exact pairsToSamples_getElem rest j lo hi h1 h2


lemma toInt16_counterexample_value : toInt16 ((65533 : ℚ) / 65534) = 32766 := by
  have hclamp : clamp ((65533 : ℚ) / 65534) = (65533 : ℚ) / 65534 :=
    clamp_eq_self _ (by norm_num) (by norm_num)
  rw [toInt16_eq_specInt16, specInt16_eq_floor _ (by rw [hclamp]; norm_num), hclamp,
    show (65533 : ℚ) / 65534 * 32767 = 65533 / 2 by norm_num]
  norm_num

lemma wireRoundTrip_counterexample_value :
    wireRoundTrip [(65533 : ℚ) / 65534] = some [(16383 : ℚ) / 16384] := by
  have hpcm : pcmBytes [(65533 : ℚ) / 65534] = [254, 127] := by
    simp [pcmBytes, toInt16_counterexample_value, int16ToBytes]
  unfold wireRoundTrip
  have hdata : (createPcmBlob [(65533 : ℚ) / 65534]).data = encode [254, 127] := by
    simp [createPcmBlob, hpcm]
  rw [hdata, show decode (encode [254, 127]) = [254, 127] from by decide]
  simp only [pcmToAudioBuffer, pairsToSamples, List.length_cons, List.length_nil]
  norm_num [int16OfPair]

/-- C3 counterexample: the sample 65533/65534 lies in [-1, 1], yet its
encode-decode round trip returns 16383/16384, which differs from the input
by more than 1/32768 (the non-negative branch scales by 32767 on encode while
decode divides by 32768, so the error can approach 2/32768). -/
theorem quantization_bound_counterexample :
    (-1 ≤ (65533 : ℚ) / 65534 ∧ (65533 : ℚ) / 65534 ≤ 1)
    ∧ wireRoundTrip [(65533 : ℚ) / 65534] = some [(16383 : ℚ) / 16384]
    ∧ 1 / 32768 < |(16383 : ℚ) / 16384 - 65533 / 65534| := by
  refine ⟨⟨by norm_num, by norm_num⟩, wireRoundTrip_counterexample_value, ?_⟩
  rw [abs_of_neg (by norm_num : (16383 : ℚ) / 16384 - 65533 / 65534 < 0)]
  norm_num

/-- C3 (amended): for every nonempty sequence of samples in [-1, 1], the
encode-decode round trip succeeds and reproduces each sample to within
2/32768 (not 1/32768: the asymmetric scale factors make the error of
non-negative samples approach 2/32768). -/
theorem quantization_bound (s : List ℚ) (hne : s ≠ [])
    (hr : ∀ x ∈ s, -1 ≤ x ∧ x ≤ 1) :
    ∃ t, wireRoundTrip s = some t ∧
      List.Forall₂ (fun a b => |b - a| ≤ 2 / 32768) s t := by
  refine ⟨s.map (fun x => (toInt16 x : ℚ) / 32768), ?_, ?_⟩
  · unfold wireRoundTrip
    have hdata : (createPcmBlob s).data = encode (pcmBytes s) := rfl
    rw [hdata, decode_encode _ (pcmBytes_lt s)]
    unfold pcmToAudioBuffer
    rw [pcmBytes_length]
    have hlen : s.length ≠ 0 := fun h => hne (List.length_eq_zero.mp h)
    rw [if_neg (by omega), if_neg (by omega), pairsToSamples_pcmBytes]
  · rw [List.forall₂_map_right_iff, List.forall₂_same]
    intro x hx
    exact sample_bound x (hr x hx).1 (hr x hx).2

/-- C3 witness: the singleton sample 1/2 is in range and round-trips to
within 2/32768. -/
theorem quantization_bound_witness :
    ((([(1 : ℚ) / 2] : List ℚ) ≠ []) ∧ ∀ x ∈ [(1 : ℚ) / 2], -1 ≤ x ∧ x ≤ 1)
    ∧ ∃ t, wireRoundTrip [(1 : ℚ) / 2] = some t ∧
        List.Forall₂ (fun a b => |b - a| ≤ 2 / 32768) [(1 : ℚ) / 2] t :=
  ⟨⟨List.cons_ne_nil _ _, by norm_num⟩,
    quantization_bound [(1 : ℚ) / 2] (List.cons_ne_nil _ _) (by norm_num)⟩


/-- C4: the PCM encoder is a total function: each sample is clamped to
[-1, 1], scaled by 32768 when the clamped value is negative and by 32767
otherwise, truncated toward zero to a signed 16-bit integer (the modular
wrap of the `Int16Array` store never fires because the value is already in
range), and packed as two little-endian bytes (reading the byte pair back
low-byte-first recovers the value); the MIME tag is fixed and empty input
produces empty output. -/
theorem createPcmBlob_spec (x : ℚ) (s : List ℚ) :
    toInt16 x = specInt16 x
    ∧ (-32768 ≤ toInt16 x ∧ toInt16 x ≤ 32767)
    ∧ pairsToSamples (int16ToBytes (toInt16 x)) = [(toInt16 x : ℚ) / 32768]
    ∧ (createPcmBlob s).mimeType = "audio/pcm;rate=16000"
    ∧ (pcmBytes s).length = 2 * s.length
    ∧ createPcmBlob [] = { data := [], mimeType := "audio/pcm;rate=16000" } := by
  have hlb : -32768 ≤ toInt16 x := by
    rw [toInt16_eq_specInt16]; exact specInt16_lb x
  have hub : toInt16 x ≤ 32767 := by
    rw [toInt16_eq_specInt16]; exact specInt16_ub x
  refine ⟨toInt16_eq_specInt16 x, ⟨hlb, hub⟩, ?_, rfl, pcmBytes_length s, rfl⟩
  simp only [int16ToBytes, pairsToSamples, int16OfPair_toBytes (toInt16 x) hlb hub]

/-- C5 counterexample: the empty chunk has even byte length, yet decoding
fails (`ctx.createBuffer(1, 0, 24000)` throws a NotSupportedError for a
zero-frame buffer), so failure is not equivalent to odd byte length. -/
theorem pcm_decode_counterexample :
    ([] : List ℕ).length % 2 = 0 ∧ pcmToAudioBuffer [] = none := by
  constructor
  · rfl
  · rfl

/-- C5 (amended): decoding fails exactly when the byte length is odd or the
chunk is empty; every nonempty even-length chunk decodes to one sample per
16-bit little-endian pair, each divided by 32768. -/
theorem pcm_decode_spec (bytes : List ℕ) :
    (pcmToAudioBuffer bytes = none ↔ bytes.length % 2 = 1 ∨ bytes = [])
    ∧ ∀ samples, pcmToAudioBuffer bytes = some samples →
        2 * samples.length = bytes.length
        ∧ ∀ i lo hi, bytes[2 * i]? = some lo → bytes[2 * i + 1]? = some hi →
            samples[i]? = some ((int16OfPair lo hi : ℚ) / 32768) := by
  constructor
  · unfold pcmToAudioBuffer
    split_ifs with h1 h2
    · simp [h1]
    · simp [List.length_eq_zero.mp h2]
    · simp only [reduceCtorEq, false_iff]
      push_neg
      exact ⟨h1, fun h => h2 (by rw [h]; rfl)⟩
  · intro samples hs
    unfold pcmToAudioBuffer at hs
    by_cases h1 : bytes.length % 2 = 1
    · rw [if_pos h1] at hs
      exact absurd hs (by simp)
    · rw [if_neg h1] at hs
      by_cases h2 : bytes.length = 0
      · rw [if_pos h2] at hs
        exact absurd hs (by simp)
      · rw [if_neg h2] at hs
        have hsamp : samples = pairsToSamples bytes := (Option.some.inj hs).symm
        subst hsamp
        refine ⟨pairsToSamples_length bytes (by omega), ?_⟩
        intro i lo hi hh1 hh2
        exact pairsToSamples_getElem bytes i lo hi hh1 hh2

/-- C5 witness: the two-byte chunk [254, 127] decodes to the single sample
32766/32768 = 16383/16384. -/
theorem pcm_decode_spec_witness :
    2 * (pairsToSamples [254, 127]).length = ([254, 127] : List ℕ).length
    ∧ (pairsToSamples [254, 127])[0]? = some ((int16OfPair 254 127 : ℚ) / 32768) := by
  have h := (pcm_decode_spec [254, 127]).2 (pairsToSamples [254, 127]) rfl
  exact ⟨h.1, h.2 0 254 127 rfl rfl⟩

/-- C10: the base64 transport codec round-trips: decoding the encoding of
any byte array returns it unchanged, so the byte length (and hence the
sample count) of a wire chunk survives the binary-to-text transport. -/
theorem base64_roundtrip (b : List ℕ) (h : ∀ x ∈ b, x < 256) :
    decode (encode b) = b ∧ (decode (encode b)).length = b.length := by
  have heq := decode_encode b h
  exact ⟨heq, by rw [heq]⟩

/-- C10 witness: a concrete five-byte array round-trips through the base64
codec unchanged. -/
theorem base64_roundtrip_witness :
    (∀ x ∈ ([0, 100, 255, 7, 8] : List ℕ), x < 256)
    ∧ decode (encode [0, 100, 255, 7, 8]) = [0, 100, 255, 7, 8]
    ∧ (decode (encode [0, 100, 255, 7, 8])).length = ([0, 100, 255, 7, 8] : List ℕ).length :=
  ⟨by decide, (base64_roundtrip [0, 100, 255, 7, 8] (by decide)).1,
    (base64_roundtrip [0, 100, 255, 7, 8] (by decide)).2⟩


lemma onAudio_closed (now : ℚ) (chunk : List ℕ) (st : VoiceState)
    (h : st.outputCtxOpen = false) : onAudio now chunk st = (st, none) := by
  simp [onAudio, h]

lemma onAudio_fail (now : ℚ) (chunk : List ℕ) (st : VoiceState)
    (h : pcmToAudioBuffer chunk = none) : onAudio now chunk st = (st, none) := by
  unfold onAudio
  rw [h]
  split <;> rfl

lemma onAudio_some (now : ℚ) (chunk : List ℕ) (st : VoiceState) (samples : List ℚ)
    (hctx : st.outputCtxOpen = true) (hdec : pcmToAudioBuffer chunk = some samples) :
    onAudio now chunk st =
      ({ st with
          nextStartTime := max now st.nextStartTime + (samples.length : ℚ) / 24000,
          audioQueue := st.audioQueue ++
            [{ startTime := max now st.nextStartTime,
               duration := (samples.length : ℚ) / 24000 }] },
        some { startTime := max now st.nextStartTime,
               duration := (samples.length : ℚ) / 24000 }) := by
  unfold onAudio
  rw [hctx, hdec]
  rfl

lemma runOnAudio_cons (st : VoiceState) (now : ℚ) (chunk : List ℕ)
    (rest : List (ℚ × List ℕ)) :
    runOnAudio st ((now, chunk) :: rest) =
      ((runOnAudio (onAudio now chunk st).1 rest).1,
        (onAudio now chunk st).2.toList ++ (runOnAudio (onAudio now chunk st).1 rest).2) :=
  rfl


lemma runOnAudio_no_overlap : ∀ (evs : List (ℚ × List ℕ)) (st : VoiceState),
    (∀ u, (runOnAudio st evs).2.head? = some u → st.nextStartTime ≤ u.startTime)
    ∧ List.Chain' (fun a b => a.startTime + a.duration ≤ b.startTime) (runOnAudio st evs).2
  | [], st => by
      constructor
      · intro u h
        simp [runOnAudio] at h
      · simp [runOnAudio]
  | (now, chunk) :: rest, st => by
      rw [runOnAudio_cons]
      by_cases hctx : st.outputCtxOpen = false
      · rw [onAudio_closed now chunk st hctx]
        simpa using runOnAudio_no_overlap rest st
      · rw [Bool.not_eq_false] at hctx
        cases hdec : pcmToAudioBuffer chunk with
        | none =>
            rw [onAudio_fail now chunk st hdec]
            simpa using runOnAudio_no_overlap rest st
        | some samples =>
            rw [onAudio_some now chunk st samples hctx hdec]
            have ih := runOnAudio_no_overlap rest
              { st with
                  nextStartTime := max now st.nextStartTime + (samples.length : ℚ) / 24000,
                  audioQueue := st.audioQueue ++
                    [{ startTime := max now st.nextStartTime,
                       duration := (samples.length : ℚ) / 24000 }] }
            constructor
            · intro u h
              simp only [Option.toList_some, List.singleton_append, List.head?_cons,
                Option.some.injEq] at h
              rw [← h]
              exact le_max_right now st.nextStartTime
            · simp only [Option.toList_some, List.singleton_append]
              refine List.chain'_cons'.mpr ⟨?_, ih.2⟩
              intro v hv
              have := ih.1 v hv
              simpa using this


lemma runOnAudio_back_to_back : ∀ (evs : List (ℚ × List ℕ)) (st : VoiceState),
    paced st evs →
    (∀ u, (runOnAudio st evs).2.head? = some u → u.startTime = st.nextStartTime)
    ∧ List.Chain' (fun a b => b.startTime = a.startTime + a.duration) (runOnAudio st evs).2
  | [], st, _ => by
      constructor
      · intro u h
        simp [runOnAudio] at h
      · simp [runOnAudio]
  | (now, chunk) :: rest, st, hp => by
      obtain ⟨hnow, hrest⟩ := hp
      rw [runOnAudio_cons]
      by_cases hctx : st.outputCtxOpen = false
      · rw [onAudio_closed now chunk st hctx] at hrest ⊢
        simpa using runOnAudio_back_to_back rest st hrest
      · rw [Bool.not_eq_false] at hctx
        cases hdec : pcmToAudioBuffer chunk with
        | none =>
            rw [onAudio_fail now chunk st hdec] at hrest ⊢
            simpa using runOnAudio_back_to_back rest st hrest
        | some samples =>
            rw [onAudio_some now chunk st samples hctx hdec] at hrest ⊢
            have hmax : max now st.nextStartTime = st.nextStartTime := max_eq_right hnow
            have ih := runOnAudio_back_to_back rest _ hrest
            constructor
            · intro u h
              simp only [Option.toList_some, List.singleton_append, List.head?_cons,
                Option.some.injEq] at h
              rw [← h, hmax]
            · simp only [Option.toList_some, List.singleton_append]
              refine List.chain'_cons'.mpr ⟨?_, ih.2⟩
              intro v hv
              have := ih.1 v hv
              simpa using this


/-- C1: without an intervening interruption, the scheduled playback units of
any run of inbound chunks never overlap: each unit starts no earlier than
the previous unit's start plus its duration, because every start is
`max(outputClockNow(), playbackCursor)` and the cursor advances to
`start + duration` after each unit. -/
theorem playback_no_overlap (st : VoiceState) (evs : List (ℚ × List ℕ)) :
    List.Chain' (fun a b => a.startTime + a.duration ≤ b.startTime)
      (scheduledUnits st evs) :=
  (runOnAudio_no_overlap evs st).2

/-- C2: when chunks arrive faster than they play out (at every scheduling
step the output clock has not passed the cursor), consecutive units are
scheduled exactly back-to-back: each start equals the previous start plus
the previous duration. -/
theorem playback_gapless_when_paced (st : VoiceState) (evs : List (ℚ × List ℕ))
    (h : paced st evs) :
    List.Chain' (fun a b => b.startTime = a.startTime + a.duration)
      (scheduledUnits st evs) :=
  (runOnAudio_back_to_back evs st h).2

lemma pairsToSamples_replicate_zero : ∀ n : ℕ,
    pairsToSamples (List.replicate (2 * n) 0) = List.replicate n 0
  | 0 => rfl
  | n + 1 => by
      rw [show 2 * (n + 1) = 2 * n + 1 + 1 by ring]
      simp only [List.replicate_succ, pairsToSamples]
      rw [pairsToSamples_replicate_zero n]
      norm_num [int16OfPair]

lemma pcmToAudioBuffer_replicate_2000 :
    pcmToAudioBuffer (List.replicate 2000 0) = some (List.replicate 1000 0) := by
  unfold pcmToAudioBuffer
  rw [List.length_replicate, if_neg (by norm_num), if_neg (by norm_num),
    show (2000 : ℕ) = 2 * 1000 from by norm_num, pairsToSamples_replicate_zero]

lemma onAudio_first_1000 :
    onAudio 0 (List.replicate 2000 0) listeningState =
      ({ isActive := true, status := "Listening...", inputCtxOpen := true,
          outputCtxOpen := true, sendAudioConnected := true,
          disconnectConnected := true, nextStartTime := 1000 / 24000,
          audioQueue := [{ startTime := 0, duration := 1000 / 24000 }] },
        some { startTime := 0, duration := 1000 / 24000 }) := by
  rw [onAudio_some 0 _ listeningState (List.replicate 1000 0) rfl
    pcmToAudioBuffer_replicate_2000]
  simp only [listeningState, List.length_replicate, Prod.mk.injEq, VoiceState.mk.injEq,
    max_self, List.nil_append, Option.some.injEq, PlaybackUnit.mk.injEq, List.cons.injEq,
    and_true, true_and, Nat.cast_ofNat, zero_add]


lemma onAudio_second_1000 :
    onAudio 0 (List.replicate 2000 0)
      { isActive := true, status := "Listening...", inputCtxOpen := true,
        outputCtxOpen := true, sendAudioConnected := true,
        disconnectConnected := true, nextStartTime := 1000 / 24000,
        audioQueue := [{ startTime := 0, duration := 1000 / 24000 }] } =
      ({ isActive := true, status := "Listening...", inputCtxOpen := true,
          outputCtxOpen := true, sendAudioConnected := true,
          disconnectConnected := true, nextStartTime := 1000 / 24000 + 1000 / 24000,
          audioQueue := [{ startTime := 0, duration := 1000 / 24000 },
                         { startTime := 1000 / 24000, duration := 1000 / 24000 }] },
        some { startTime := 1000 / 24000, duration := 1000 / 24000 }) := by
  rw [onAudio_some 0 _ _ (List.replicate 1000 0) rfl pcmToAudioBuffer_replicate_2000]
  simp only [List.length_replicate, Prod.mk.injEq, VoiceState.mk.injEq,
    List.singleton_append, Option.some.injEq, PlaybackUnit.mk.injEq, List.cons.injEq,
    and_true, true_and, Nat.cast_ofNat]
  have hmax : (0 : ℚ) ⊔ 1000 / 24000 = 1000 / 24000 := max_eq_right (by norm_num)
  rw [hmax]
  norm_num

set_option maxRecDepth 4000 in
lemma paced_twoChunks : paced listeningState twoChunks := by
  unfold twoChunks
  refine ⟨le_refl 0, ?_⟩
  rw [onAudio_first_1000]
  refine ⟨?_, trivial⟩
  norm_num

set_option maxRecDepth 4000 in
lemma runOnAudio_twoChunks :
    scheduledUnits listeningState twoChunks
      = [{ startTime := 0, duration := 1000 / 24000 },
         { startTime := 0 + 1000 / 24000, duration := 1000 / 24000 }] := by
  unfold scheduledUnits twoChunks
  rw [runOnAudio_cons, onAudio_first_1000]
  simp only [runOnAudio_cons, onAudio_second_1000, runOnAudio, Option.toList_some,
    List.singleton_append, List.append_nil, List.cons.injEq, PlaybackUnit.mk.injEq]
  norm_num


lemma pcmToAudioBuffer_four_zeros : pcmToAudioBuffer [0, 0, 0, 0] = some [0, 0] := by
  unfold pcmToAudioBuffer
  norm_num [pairsToSamples, int16OfPair]

lemma paced_twoSmallChunks : paced listeningState twoSmallChunks := by
  unfold twoSmallChunks
  refine ⟨le_refl 0, ?_⟩
  rw [onAudio_some 0 _ listeningState [0, 0] rfl pcmToAudioBuffer_four_zeros]
  refine ⟨?_, trivial⟩
  norm_num [listeningState]

/-- C2 witness: the paced 1000-sample scenario trace is exactly two units,
the second starting at the first unit's start plus 1000/24000 seconds; and
the theorem applied to a concrete paced two-chunk run yields the
back-to-back chain of its scheduled trace. -/
theorem playback_gapless_witness :
    paced listeningState twoChunks
    ∧ scheduledUnits listeningState twoChunks
        = [{ startTime := 0, duration := 1000 / 24000 },
           { startTime := 0 + 1000 / 24000, duration := 1000 / 24000 }]
    ∧ paced listeningState twoSmallChunks
    ∧ List.Chain' (fun a b => b.startTime = a.startTime + a.duration)
        (scheduledUnits listeningState twoSmallChunks) :=
  ⟨paced_twoChunks, runOnAudio_twoChunks, paced_twoSmallChunks,
    playback_gapless_when_paced listeningState twoSmallChunks paced_twoSmallChunks⟩


/-- C6: a flush executed by `onInterrupted` empties the active-unit set and
resets the playback cursor to the output clock at flush time, so the next
decodable chunk that arrives at a clock value at or after the flush is
scheduled at that current clock value, not at the stale pre-flush cursor. -/
theorem flush_resets_cursor (st : VoiceState) (now now2 : ℚ) (chunk : List ℕ)
    (samples : List ℚ) (hctx : st.outputCtxOpen = true) (hle : now ≤ now2)
    (hdec : pcmToAudioBuffer chunk = some samples) :
    (onInterrupted now st).audioQueue = []
    ∧ (onInterrupted now st).nextStartTime = now
    ∧ (onAudio now2 chunk (onInterrupted now st)).2
        = some { startTime := now2, duration := (samples.length : ℚ) / 24000 } := by
  have h1 : onInterrupted now st =
      { st with audioQueue := [], nextStartTime := now } := by
    simp [onInterrupted, stopAllPlayback, hctx]
  refine ⟨by rw [h1], by rw [h1], ?_⟩
  have hctx2 : (onInterrupted now st).outputCtxOpen = true := by
    rw [h1]
    exact hctx
  have hcur : (onInterrupted now st).nextStartTime = now := by
    rw [h1]
  rw [onAudio_some now2 chunk (onInterrupted now st) samples hctx2 hdec, hcur]
  simp [max_eq_left hle]

/-- C6 witness: from a listening state with a stale cursor at 100 and one
active unit, a flush at clock 5 empties the queue and resets the cursor to
5, and a 1-sample chunk arriving at clock 6 is scheduled at 6. -/
theorem flush_resets_cursor_witness :
    (onInterrupted 5 { listeningState with
        nextStartTime := 100,
        audioQueue := [{ startTime := 0, duration := 2 }] }).audioQueue = []
    ∧ (onInterrupted 5 { listeningState with
        nextStartTime := 100,
        audioQueue := [{ startTime := 0, duration := 2 }] }).nextStartTime = 5
    ∧ (onAudio 6 [0, 0] (onInterrupted 5 { listeningState with
        nextStartTime := 100,
        audioQueue := [{ startTime := 0, duration := 2 }] })).2
        = some { startTime := 6, duration := (([(0 : ℚ)] : List ℚ).length : ℚ) / 24000 } :=
  flush_resets_cursor _ 5 6 [0, 0] [0] rfl (by norm_num)
    (by unfold pcmToAudioBuffer; norm_num [pairsToSamples, int16OfPair])

/-- C7: a chunk whose decode fails is dropped without escalating: the call
returns the state unchanged (cursor, active-unit set and session fields
intact) and schedules nothing, and the remainder of the run proceeds
exactly as if the bad chunk had never arrived. -/
theorem decode_failure_dropped (st : VoiceState) (now : ℚ) (chunk : List ℕ)
    (rest : List (ℚ × List ℕ)) (hdec : pcmToAudioBuffer chunk = none) :
    onAudio now chunk st = (st, none)
    ∧ runOnAudio st ((now, chunk) :: rest) = runOnAudio st rest := by
  have h1 : onAudio now chunk st = (st, none) := onAudio_fail now chunk st hdec
  refine ⟨h1, ?_⟩
  rw [runOnAudio_cons, h1]
  simp

/-- C7 witness: an odd-length (hence undecodable) chunk at clock 0 is
dropped with the listening state unchanged, and the run continues with the
following well-formed chunk as if the bad chunk had never arrived. -/
theorem decode_failure_dropped_witness :
    onAudio 0 [0] listeningState = (listeningState, none)
    ∧ runOnAudio listeningState [(0, [0]), (0, [0, 0, 0, 0])]
        = runOnAudio listeningState [(0, [0, 0, 0, 0])] :=
  decode_failure_dropped listeningState 0 [0] [(0, [0, 0, 0, 0])] rfl

/-- C8: handling `onInterrupted` mutates only the playback scheduler state:
the session activity flag, status, both audio-context handles and both
connection handles are unchanged (so a Listening session stays Listening),
while the active-unit set is cleared. -/
theorem interrupt_frame_condition (now : ℚ) (st : VoiceState) :
    (onInterrupted now st).isActive = st.isActive
    ∧ (onInterrupted now st).status = st.status
    ∧ (onInterrupted now st).inputCtxOpen = st.inputCtxOpen
    ∧ (onInterrupted now st).outputCtxOpen = st.outputCtxOpen
    ∧ (onInterrupted now st).sendAudioConnected = st.sendAudioConnected
    ∧ (onInterrupted now st).disconnectConnected = st.disconnectConnected
    ∧ (onInterrupted now st).audioQueue = [] := by
  simp [onInterrupted, stopAllPlayback]


lemma captureRun_foldl : ∀ (frames : List (List ℚ)) (acc : List PcmBlob),
    frames.foldl (fun sent frame => onaudioprocess true frame sent) acc
      = acc ++ frames.map createPcmBlob
  | [], acc => by simp
  | f :: rest, acc => by
      rw [List.foldl_cons, captureRun_foldl rest]
      simp [onaudioprocess, List.append_assoc]

/-- C9: with the send path connected, every captured frame of n samples is
forwarded as exactly one wire chunk whose binary payload (recovered by the
base64 decoder) has byte length 2n and whose MIME tag is exactly
the string audio/pcm;rate=16000; k frames yield k chunks in order. -/
theorem capture_pipeline_chunks (frames : List (List ℚ)) :
    captureRun frames = frames.map createPcmBlob
    ∧ List.Forall₂ (fun frame blob =>
        blob.mimeType = "audio/pcm;rate=16000"
        ∧ (decode blob.data).length = 2 * frame.length) frames (captureRun frames) := by
  have h1 : captureRun frames = frames.map createPcmBlob := by
    unfold captureRun
    rw [captureRun_foldl]
    simp
  refine ⟨h1, ?_⟩
  rw [h1, List.forall₂_map_right_iff, List.forall₂_same]
  intro f _
  refine ⟨rfl, ?_⟩
  show (decode (encode (pcmBytes f))).length = 2 * f.length
  rw [decode_encode _ (pcmBytes_lt f), pcmBytes_length]

end AskDharma
